import Mathlib

/-!
Verification of the coolify-mcp-server tool dispatcher (src/index.ts).

The development embeds the TypeScript source shallowly:

* `Json` models the JSON values exchanged with the remote API and with the
  MCP runtime (JS numbers are modelled as integers).
* `ppVal` models `JSON.stringify`, in both its compact form (`stringify(v)`)
  and its two-space-indented form (`stringify(v, null, 2)`), and `parseJson`
  models `JSON.parse`; a round-trip theorem connects them.
* `coolifyApiCall`, `dispatch` and the zod schema parsers model the helper
  and the `CallToolRequestSchema` handler of src/index.ts, with the single
  HTTP round trip represented by an oracle from requests to responses.
-/

namespace CoolifyMcp

/-- JSON values. Numbers are modelled as integers: every numeric literal the
server itself produces (line counts, HTTP status codes) is an integer. -/
inductive Json where
  | null
  | bool (b : Bool)
  | num (n : Int)
  | str (s : String)
  | arr (elems : List Json)
  | obj (fields : List (String × Json))

/-- The character of a hexadecimal digit, lower case, as produced by
JavaScript string escaping (`\u00XX`). For `n < 10` this is also the decimal
digit character. -/
def hexDigit (n : Nat) : Char := if n < 10 then Char.ofNat (48 + n) else Char.ofNat (87 + n)

/-- How `JSON.stringify` escapes one character of a string. -/
def escapeChar (c : Char) : List Char :=
  if c = '"' then ['\\', '"']
  else if c = '\\' then ['\\', '\\']
  else if c = '\n' then ['\\', 'n']
  else if c = '\r' then ['\\', 'r']
  else if c = '\t' then ['\\', 't']
  else if c.toNat = 8 then ['\\', 'b']
  else if c.toNat = 12 then ['\\', 'f']
  else if c.toNat < 32 then ['\\', 'u', '0', '0', hexDigit (c.toNat / 16), hexDigit (c.toNat % 16)]
  else [c]

/-- Escape every character of a string body. -/
def escapeList : List Char → List Char
  | [] => []
  | c :: cs => escapeChar c ++ escapeList cs

/-- A JSON string literal: quote, escaped body, quote. -/
def quoteChars (s : String) : List Char := '"' :: (escapeList s.data ++ ['"'])

/-- Decimal digits of a natural number, most significant first. -/
def natChars (n : Nat) : List Char :=
  if n < 10 then [hexDigit n]
  else natChars (n / 10) ++ [hexDigit (n % 10)]
termination_by n
decreasing_by exact Nat.div_lt_self (by omega) (by omega)

/-- Decimal rendering of an integer, as JavaScript renders integral numbers. -/
def intChars (n : Int) : List Char :=
  if n < 0 then '-' :: natChars n.natAbs else natChars n.natAbs

/-- Indentation padding. -/
def padChars (i : Nat) : List Char := List.replicate i ' '

/-- A line break followed by indentation in pretty mode; nothing in compact
mode. -/
def nlChars (p : Bool) (i : Nat) : List Char := if p then '\n' :: padChars i else []

/-- The separator after an object key: `": "` pretty, `":"` compact. -/
def colonChars (p : Bool) : List Char := if p then [':', ' '] else [':']

mutual

/-- `JSON.stringify`: pretty (two-space indent, `p = true`, current indent
`i`) or compact (`p = false`). -/
def ppVal (p : Bool) (i : Nat) : Json → List Char
  | .num n => intChars n
  | .str s => quoteChars s
  | .null => ['n', 'u', 'l', 'l']
  | .bool b => if b then ['t', 'r', 'u', 'e'] else ['f', 'a', 'l', 's', 'e']
  | .arr [] => ['[', ']']
  | .arr (x :: xs) =>
      '[' :: (nlChars p (i + 2) ++ ppVal p (i + 2) x ++ ppArrRest p (i + 2) xs
        ++ nlChars p i ++ [']'])
  | .obj [] => ['\x7b', '\x7d']
  | .obj (f :: fs) =>
      '\x7b' :: (nlChars p (i + 2) ++ ppFld p (i + 2) f ++ ppObjRest p (i + 2) fs
        ++ nlChars p i ++ ['\x7d'])

/-- One object field: quoted key, colon separator, value. -/
def ppFld (p : Bool) (i : Nat) : String × Json → List Char
  | (k, v) => quoteChars k ++ colonChars p ++ ppVal p i v

/-- The remaining elements of a non-empty array, each preceded by a comma. -/
def ppArrRest (p : Bool) (i : Nat) : List Json → List Char
  | [] => []
  | x :: xs => ',' :: (nlChars p i ++ ppVal p i x ++ ppArrRest p i xs)

/-- The remaining fields of a non-empty object, each preceded by a comma. -/
def ppObjRest (p : Bool) (i : Nat) : List (String × Json) → List Char
  | [] => []
  | f :: fs => ',' :: (nlChars p i ++ ppFld p i f ++ ppObjRest p i fs)

end

/-- `JSON.stringify(v, null, 2)`. -/
def stringifyPP (v : Json) : String := String.mk (ppVal true 0 v)

/-- `JSON.stringify(v)`. -/
def stringifyC (v : Json) : String := String.mk (ppVal false 0 v)

/-! ## A JSON parser (`JSON.parse`)

The parser is what a test harness applies to the text the server returns;
it accepts standard JSON with integral numbers. It is written with explicit
fuel (any fuel at least the size of the value suffices, and the top-level
entry point supplies the length of the input). -/

/-- Decimal digit recogniser. -/
def isDig (c : Char) : Bool := 48 ≤ c.toNat && c.toNat ≤ 57

/-- JSON insignificant whitespace. -/
def isWsChar (c : Char) : Bool := c = ' ' || c = '\n' || c = '\t' || c = '\r'

/-- Drop leading whitespace. -/
def skipWs : List Char → List Char
  | [] => []
  | c :: cs => if isWsChar c then skipWs cs else c :: cs

/-- Numeric value of a hexadecimal digit character (garbage on non-digits). -/
def hexVal (c : Char) : Nat :=
  if 48 ≤ c.toNat && c.toNat ≤ 57 then c.toNat - 48
  else if 97 ≤ c.toNat && c.toNat ≤ 102 then c.toNat - 87
  else if 65 ≤ c.toNat && c.toNat ≤ 70 then c.toNat - 55
  else 0

/-- Hexadecimal digit recogniser. -/
def isHexDig (c : Char) : Bool :=
  (48 ≤ c.toNat && c.toNat ≤ 57) || (97 ≤ c.toNat && c.toNat ≤ 102)
    || (65 ≤ c.toNat && c.toNat ≤ 70)

/-- Value of a run of decimal digit characters, most significant first. -/
def digitsVal (ds : List Char) : Nat := ds.foldl (fun a c => a * 10 + (c.toNat - 48)) 0

/-- Parse a run of decimal digits (maximal munch). -/
def pNat (cs : List Char) : Option (Nat × List Char) :=
  let ds := cs.takeWhile isDig
  if ds.isEmpty then none else some (digitsVal ds, cs.dropWhile isDig)

/-- Parse an optionally signed integer. -/
def pInt : List Char → Option (Int × List Char)
  | [] => none
  | c :: cs' =>
    if c = '-' then (pNat cs').map fun r => (-(r.1 : Int), r.2)
    else (pNat (c :: cs')).map fun r => ((r.1 : Int), r.2)

/-- Prepend a character to the first component of a parse result. -/
def consFst (c : Char) (p : List Char × List Char) : List Char × List Char := (c :: p.1, p.2)

mutual

/-- Parse the body of a string literal, after the opening quote, up to and
including the closing quote; returns the unescaped characters. -/
def pStrChars : List Char → Option (List Char × List Char)
  | [] => none
  | c :: r =>
    if c = '"' then some ([], r)
    else if c = '\\' then pEsc r
    else (pStrChars r).map (consFst c)
termination_by cs => cs.length
decreasing_by all_goals simp

/-- Parse one escape sequence (after the backslash) and the remainder of the
string literal. -/
def pEsc : List Char → Option (List Char × List Char)
  | [] => none
  | e :: r =>
    if e = '"' then (pStrChars r).map (consFst '"')
    else if e = '\\' then (pStrChars r).map (consFst '\\')
    else if e = '/' then (pStrChars r).map (consFst '/')
    else if e = 'n' then (pStrChars r).map (consFst '\n')
    else if e = 't' then (pStrChars r).map (consFst '\t')
    else if e = 'r' then (pStrChars r).map (consFst '\r')
    else if e = 'b' then (pStrChars r).map (consFst (Char.ofNat 8))
    else if e = 'f' then (pStrChars r).map (consFst (Char.ofNat 12))
    else if e = 'u' then pEscU r
    else none
termination_by cs => cs.length
decreasing_by all_goals simp

/-- Parse the four hexadecimal digits of a `\u` escape and the remainder of
the string literal. -/
def pEscU : List Char → Option (List Char × List Char)
  | h1 :: h2 :: h3 :: h4 :: r' =>
      if isHexDig h1 && isHexDig h2 && isHexDig h3 && isHexDig h4 then
        (pStrChars r').map
          (consFst (Char.ofNat (hexVal h1 * 4096 + hexVal h2 * 256 + hexVal h3 * 16
            + hexVal h4)))
      else none
  | _ => none
termination_by cs => cs.length
decreasing_by all_goals (simp; omega)

end

/-- Parse the keyword tail `ull` of `null`. -/
def pNull : List Char → Option (Json × List Char)
  | 'u' :: 'l' :: 'l' :: r => some (.null, r)
  | _ => none

/-- Parse the keyword tail `rue` of `true`. -/
def pTrue : List Char → Option (Json × List Char)
  | 'r' :: 'u' :: 'e' :: r => some (.bool true, r)
  | _ => none

/-- Parse the keyword tail `alse` of `false`. -/
def pFalse : List Char → Option (Json × List Char)
  | 'a' :: 'l' :: 's' :: 'e' :: r => some (.bool false, r)
  | _ => none

/-- After `[` (whitespace skipped): an immediate `]`, or a first element
parsed by `next` and the remaining elements parsed by `atail`. -/
def pArrStart (next : List Char → Option (Json × List Char))
    (atail : List Char → Option (List Json × List Char)) :
    List Char → Option (Json × List Char)
  | [] => none
  | d :: r =>
      if d = ']' then some (.arr [], r)
      else (next (d :: r)).bind fun xr =>
        (atail xr.2).map fun q => (.arr (xr.1 :: q.1), q.2)

/-- After an opening brace (whitespace skipped): an immediate closing brace,
or a first field parsed by `fld` and the remaining fields parsed by
`otail`. -/
def pObjStart (fld : List Char → Option ((String × Json) × List Char))
    (otail : List Char → Option (List (String × Json) × List Char)) :
    List Char → Option (Json × List Char)
  | [] => none
  | d :: r =>
      if d = '\x7d' then some (.obj [], r)
      else (fld (d :: r)).bind fun fr =>
        (otail fr.2).map fun q => (.obj (fr.1 :: q.1), q.2)

/-- After one array element (whitespace skipped): `]` closes the array, `,`
continues with another element. -/
def pArrTailAfterWs (next : List Char → Option (Json × List Char))
    (atail : List Char → Option (List Json × List Char)) :
    List Char → Option (List Json × List Char)
  | [] => none
  | d :: r =>
      if d = ']' then some ([], r)
      else if d = ',' then
        (next r).bind fun xr => (atail xr.2).map fun q => (xr.1 :: q.1, q.2)
      else none

/-- After the key of a field (whitespace skipped): a colon, then the value
parsed by `next`. -/
def pFldColon (next : List Char → Option (Json × List Char)) (k : String) :
    List Char → Option ((String × Json) × List Char)
  | [] => none
  | e :: r3 =>
      if e = ':' then (next r3).map fun q => ((k, q.1), q.2)
      else none

/-- One `"key": value` field (whitespace skipped). -/
def pFldAfterWs (next : List Char → Option (Json × List Char)) :
    List Char → Option ((String × Json) × List Char)
  | [] => none
  | d :: r =>
      if d = '"' then
        (pStrChars r).bind fun kr => pFldColon next (String.mk kr.1) (skipWs kr.2)
      else none

/-- After one object field (whitespace skipped): a closing brace ends the
object, `,` continues with another field. -/
def pObjTailAfterWs (fld : List Char → Option ((String × Json) × List Char))
    (otail : List Char → Option (List (String × Json) × List Char)) :
    List Char → Option (List (String × Json) × List Char)
  | [] => none
  | d :: r =>
      if d = '\x7d' then some ([], r)
      else if d = ',' then
        (fld r).bind fun fr => (otail fr.2).map fun q => (fr.1 :: q.1, q.2)
      else none

/-- Dispatch on the first significant character of a JSON value. -/
def pAfterWs (next : List Char → Option (Json × List Char))
    (atail : List Char → Option (List Json × List Char))
    (fld : List Char → Option ((String × Json) × List Char))
    (otail : List Char → Option (List (String × Json) × List Char)) :
    List Char → Option (Json × List Char)
  | [] => none
  | c :: cs' =>
      if c = 'n' then pNull cs'
      else if c = 't' then pTrue cs'
      else if c = 'f' then pFalse cs'
      else if c = '"' then (pStrChars cs').map fun q => (.str (String.mk q.1), q.2)
      else if c = '[' then pArrStart next atail (skipWs cs')
      else if c = '\x7b' then pObjStart fld otail (skipWs cs')
      else if c = '-' || isDig c then (pInt (c :: cs')).map fun q => (.num q.1, q.2)
      else none

mutual

/-- Parse one JSON value, skipping leading whitespace. -/
def pVal : Nat → List Char → Option (Json × List Char)
  | 0, _ => none
  | fuel + 1, cs => pAfterWs (pVal fuel) (pArrTail fuel) (pFld fuel) (pObjTail fuel) (skipWs cs)

/-- After one array element: a comma and another element, or the closing
bracket. -/
def pArrTail : Nat → List Char → Option (List Json × List Char)
  | 0, _ => none
  | fuel + 1, cs => pArrTailAfterWs (pVal fuel) (pArrTail fuel) (skipWs cs)

/-- Parse one `"key": value` field, skipping leading whitespace. -/
def pFld : Nat → List Char → Option ((String × Json) × List Char)
  | 0, _ => none
  | fuel + 1, cs => pFldAfterWs (pVal fuel) (skipWs cs)

/-- After one object field: a comma and another field, or the closing
brace. -/
def pObjTail : Nat → List Char → Option (List (String × Json) × List Char)
  | 0, _ => none
  | fuel + 1, cs => pObjTailAfterWs (pFld fuel) (pObjTail fuel) (skipWs cs)

end

/-- `JSON.parse`: parse a complete document (only trailing whitespace may
follow the value). -/
def parseJson (s : String) : Option Json :=
  match pVal (s.length + 1) s.data with
  | some (v, r) => if skipWs r = [] then some v else none
  | none => none

/-! ## Round trip: `parseJson (stringify v) = some v` -/

mutual

/-- Fuel needed to parse a printed value. -/
def jsize : Json → Nat
  | .null | .bool _ | .num _ | .str _ => 1
  | .arr xs => 1 + jsizeL xs
  | .obj fs => 1 + jsizeF fs

/-- Fuel needed for the elements of an array. -/
def jsizeL : List Json → Nat
  | [] => 0
  | x :: xs => jsize x + jsizeL xs

/-- Fuel needed for the fields of an object. -/
def jsizeF : List (String × Json) → Nat
  | [] => 0
  | f :: fs => 1 + jsize f.2 + jsizeF fs

end

theorem jsize_pos : ∀ v, 1 ≤ jsize v := by
  intro v
  cases v <;> simp [jsize]

/-- The list does not begin with a decimal digit (so a number parse that
stops just before it is maximal). -/
def noDigHead : List Char → Prop
  | [] => True
  | c :: _ => isDig c = false

theorem noDigHead_of_head {c : Char} {cs : List Char} (h : isDig c = false) :
    noDigHead (c :: cs) := h

theorem skipWs_cons_of_neg {c : Char} (cs : List Char) (h : isWsChar c = false) :
    skipWs (c :: cs) = c :: cs := by
  simp [skipWs, h]

theorem skipWs_pad (i : Nat) (cs : List Char) : skipWs (padChars i ++ cs) = skipWs cs := by
  induction i with
  | zero => simp [padChars]
  | succ i ih =>
      simp only [padChars, List.replicate_succ, List.cons_append]
      rw [show skipWs (' ' :: (List.replicate i ' ' ++ cs)) =
        skipWs (List.replicate i ' ' ++ cs) by simp [skipWs, isWsChar]]
      exact ih

theorem skipWs_nl (p : Bool) (i : Nat) (cs : List Char) :
    skipWs (nlChars p i ++ cs) = skipWs cs := by
  cases p with
  | false => simp [nlChars]
  | true =>
      simp only [nlChars, if_pos, List.cons_append]
      rw [show skipWs ('\n' :: (padChars i ++ cs)) = skipWs (padChars i ++ cs) by
        simp [skipWs, isWsChar]]
      exact skipWs_pad i cs

theorem hexDigit_isDig {m : Nat} (h : m < 10) : isDig (hexDigit m) = true := by
  interval_cases m <;> decide

theorem hexDigit_toNat {m : Nat} (h : m < 10) : (hexDigit m).toNat = 48 + m := by
  interval_cases m <;> decide

theorem hexDigit_isHex {m : Nat} (h : m < 16) : isHexDig (hexDigit m) = true := by
  interval_cases m <;> decide

theorem hexVal_hexDigit {m : Nat} (h : m < 16) : hexVal (hexDigit m) = m := by
  interval_cases m <;> decide

theorem natChars_digits : ∀ n, ∀ c ∈ natChars n, isDig c = true := by
  intro n
  induction n using Nat.strong_induction_on with
  | _ n ih =>
      rw [natChars]
      split
      · intro c hc
        rw [List.mem_singleton] at hc
        subst hc
        exact hexDigit_isDig (by omega)
      · intro c hc
        rw [List.mem_append, List.mem_singleton] at hc
        rcases hc with hc | rfl
        · exact ih (n / 10) (Nat.div_lt_self (by omega) (by omega)) c hc
        · exact hexDigit_isDig (Nat.mod_lt _ (by omega))

theorem natChars_ne_nil (n : Nat) : natChars n ≠ [] := by
  rw [natChars]
  split <;> simp

theorem digitsVal_append_last (l : List Char) (d : Char) :
    digitsVal (l ++ [d]) = digitsVal l * 10 + (d.toNat - 48) := by
  simp [digitsVal, List.foldl_append]

theorem digitsVal_natChars : ∀ n, digitsVal (natChars n) = n := by
  intro n
  induction n using Nat.strong_induction_on with
  | _ n ih =>
      rw [natChars]
      split
      · rw [show [hexDigit n] = [] ++ [hexDigit n] from rfl, digitsVal_append_last]
        simp [digitsVal, hexDigit_toNat (show n < 10 by omega)]
      · rw [digitsVal_append_last, ih (n / 10) (Nat.div_lt_self (by omega) (by omega)),
          hexDigit_toNat (Nat.mod_lt _ (by omega))]
        omega

theorem takeWhile_all_append {p : Char → Bool} :
    ∀ (l rest : List Char), (∀ c ∈ l, p c = true) →
      (∀ c, rest.head? = some c → p c = false) →
      (l ++ rest).takeWhile p = l ∧ (l ++ rest).dropWhile p = rest := by
  intro l rest hl hr
  induction l with
  | nil =>
      cases rest with
      | nil => simp
      | cons r rs => simp [List.takeWhile, List.dropWhile, hr r rfl]
  | cons c cs ih =>
      have hc := hl c (by simp)
      have := ih fun c hc => hl c (by simp [hc])
      simp [List.takeWhile, List.dropWhile, hc, this.1, this.2]

theorem pNat_natChars (n : Nat) (rest : List Char) (hr : noDigHead rest) :
    pNat (natChars n ++ rest) = some (n, rest) := by
  have hr' : ∀ c, rest.head? = some c → isDig c = false := by
    intro c hc
    cases rest with
    | nil => simp at hc
    | cons r rs =>
        simp only [List.head?_cons, Option.some.injEq] at hc
        subst hc
        exact hr
  obtain ⟨ht, hd⟩ := takeWhile_all_append (natChars n) rest (natChars_digits n) hr'
  rw [pNat]
  simp only [ht, hd, List.isEmpty_iff]
  rw [if_neg (natChars_ne_nil n), digitsVal_natChars]

theorem isDig_ne_minus {c : Char} (h : isDig c = true) : c ≠ '-' := by
  intro hc
  subst hc
  simp [isDig] at h

theorem pInt_intChars (n : Int) (rest : List Char) (hr : noDigHead rest) :
    pInt (intChars n ++ rest) = some (n, rest) := by
  by_cases hn : n < 0
  · rw [intChars, if_pos hn]
    rw [List.cons_append, pInt]
    rw [if_pos rfl, pNat_natChars _ _ hr]
    simp only [Option.map_some']
    congr 1
    congr 1
    omega
  · rw [intChars, if_neg hn]
    obtain ⟨c, t, hct⟩ := List.exists_cons_of_ne_nil (natChars_ne_nil n.natAbs)
    have hc : isDig c = true := by
      apply natChars_digits n.natAbs
      rw [hct]
      simp
    rw [hct, List.cons_append, pInt, if_neg (by simpa using isDig_ne_minus hc),
      ← List.cons_append, ← hct, pNat_natChars _ _ hr]
    simp only [Option.map_some']
    congr 1
    congr 1
    omega

theorem char_ofNat_toNat {c : Char} (h : c.toNat < 55296) : Char.ofNat c.toNat = c := by
  have hv : Nat.isValidChar c.toNat := Or.inl h
  unfold Char.ofNat
  rw [dif_pos hv]
  unfold Char.ofNatAux
  apply Char.ext
  show UInt32.ofNat' c.toNat _ = c.val
  apply UInt32.ext
  simp [UInt32.ofNat', UInt32.toNat]
  rfl

theorem pStr_q (r : List Char) : pStrChars ('"' :: r) = some ([], r) := by
  simp [pStrChars]

theorem pStr_bs (r : List Char) : pStrChars ('\\' :: r) = pEsc r := by
  simp [pStrChars]

theorem pStr_other {c : Char} (r : List Char) (h1 : c ≠ '"') (h2 : c ≠ '\\') :
    pStrChars (c :: r) = (pStrChars r).map (consFst c) := by
  rw [pStrChars, if_neg h1, if_neg h2]

theorem pEsc_q (r : List Char) : pEsc ('"' :: r) = (pStrChars r).map (consFst '"') := by
  simp [pEsc]

theorem pEsc_bs (r : List Char) : pEsc ('\\' :: r) = (pStrChars r).map (consFst '\\') := by
  simp [pEsc]

theorem pEsc_n (r : List Char) : pEsc ('n' :: r) = (pStrChars r).map (consFst '\n') := by
  simp [pEsc]

theorem pEsc_t (r : List Char) : pEsc ('t' :: r) = (pStrChars r).map (consFst '\t') := by
  simp [pEsc]

theorem pEsc_r (r : List Char) : pEsc ('r' :: r) = (pStrChars r).map (consFst '\r') := by
  simp [pEsc]

theorem pEsc_b (r : List Char) : pEsc ('b' :: r) = (pStrChars r).map (consFst (Char.ofNat 8)) := by
  simp [pEsc]

theorem pEsc_f (r : List Char) :
    pEsc ('f' :: r) = (pStrChars r).map (consFst (Char.ofNat 12)) := by
  simp [pEsc]

theorem pEsc_u (h1 h2 h3 h4 : Char) (r : List Char)
    (hx : isHexDig h1 && isHexDig h2 && isHexDig h3 && isHexDig h4) :
    pEsc ('u' :: h1 :: h2 :: h3 :: h4 :: r) = (pStrChars r).map
      (consFst (Char.ofNat (hexVal h1 * 4096 + hexVal h2 * 256 + hexVal h3 * 16 + hexVal h4))) := by
  rw [show pEsc ('u' :: h1 :: h2 :: h3 :: h4 :: r) = pEscU (h1 :: h2 :: h3 :: h4 :: r) by
    rw [pEsc]
    rw [if_neg (by decide), if_neg (by decide), if_neg (by decide), if_neg (by decide),
      if_neg (by decide), if_neg (by decide), if_neg (by decide), if_neg (by decide),
      if_pos rfl]]
  rw [pEscU, if_pos hx]

theorem pStr_escape : ∀ l rest : List Char,
    pStrChars (escapeList l ++ '"' :: rest) = some (l, rest) := by
  intro l
  induction l with
  | nil =>
      intro rest
      rw [escapeList, List.nil_append, pStr_q]
  | cons c l ih =>
      intro rest
      rw [escapeList, List.append_assoc]
      by_cases hc1 : c = '"'
      · subst hc1
        rw [show escapeChar '"' = ['\\', '"'] from rfl]
        rw [List.cons_append, List.cons_append, List.nil_append, pStr_bs, pEsc_q, ih]
        rfl
      · by_cases hc2 : c = '\\'
        · subst hc2
          rw [show escapeChar '\\' = ['\\', '\\'] from rfl]
          rw [List.cons_append, List.cons_append, List.nil_append, pStr_bs, pEsc_bs, ih]
          rfl
        · by_cases hc3 : c = '\n'
          · subst hc3
            rw [show escapeChar '\n' = ['\\', 'n'] from rfl]
            rw [List.cons_append, List.cons_append, List.nil_append, pStr_bs, pEsc_n, ih]
            rfl
          · by_cases hc4 : c = '\r'
            · subst hc4
              rw [show escapeChar '\r' = ['\\', 'r'] from rfl]
              rw [List.cons_append, List.cons_append, List.nil_append, pStr_bs, pEsc_r, ih]
              rfl
            · by_cases hc5 : c = '\t'
              · subst hc5
                rw [show escapeChar '\t' = ['\\', 't'] from rfl]
                rw [List.cons_append, List.cons_append, List.nil_append, pStr_bs, pEsc_t, ih]
                rfl
              · by_cases hc6 : c.toNat = 8
                · rw [show escapeChar c = ['\\', 'b'] by
                    simp [escapeChar, hc1, hc2, hc3, hc4, hc5, hc6]]
                  rw [List.cons_append, List.cons_append, List.nil_append, pStr_bs, pEsc_b, ih]
                  have h8 : Char.ofNat 8 = c := by
                    rw [← hc6]
                    exact char_ofNat_toNat (by omega)
                  rw [h8]
                  rfl
                · by_cases hc7 : c.toNat = 12
                  · rw [show escapeChar c = ['\\', 'f'] by
                      simp [escapeChar, hc1, hc2, hc3, hc4, hc5, hc6, hc7]]
                    rw [List.cons_append, List.cons_append, List.nil_append, pStr_bs, pEsc_f, ih]
                    have h12 : Char.ofNat 12 = c := by
                      rw [← hc7]
                      exact char_ofNat_toNat (by omega)
                    rw [h12]
                    rfl
                  · by_cases hc8 : c.toNat < 32
                    · rw [show escapeChar c = ['\\', 'u', '0', '0',
                        hexDigit (c.toNat / 16), hexDigit (c.toNat % 16)] by
                          simp [escapeChar, hc1, hc2, hc3, hc4, hc5, hc6, hc7, hc8]]
                      simp only [List.cons_append, List.nil_append]
                      rw [pStr_bs]
                      rw [pEsc_u _ _ _ _ _ (by
                        rw [show isHexDig '0' = true from rfl,
                          hexDigit_isHex (show c.toNat / 16 < 16 by omega),
                          hexDigit_isHex (show c.toNat % 16 < 16 by omega)]
                        rfl)]
                      rw [ih]
                      rw [show hexVal '0' = 0 from rfl,
                        hexVal_hexDigit (show c.toNat / 16 < 16 by omega),
                        hexVal_hexDigit (show c.toNat % 16 < 16 by omega)]
                      rw [show (0 : Nat) * 4096 + 0 * 256 + c.toNat / 16 * 16 + c.toNat % 16
                        = c.toNat by omega]
                      rw [char_ofNat_toNat (by omega)]
                      rfl
                    · rw [show escapeChar c = [c] by
                        simp [escapeChar, hc1, hc2, hc3, hc4, hc5, hc6, hc7, hc8]]
                      rw [List.cons_append, List.nil_append, pStr_other _ hc1 hc2, ih]
                      rfl

theorem isDig_bounds {c : Char} (h : isDig c = true) : 48 ≤ c.toNat ∧ c.toNat ≤ 57 := by
  simpa [isDig] using h

theorem isDig_facts {c : Char} (h : isDig c = true) :
    isWsChar c = false ∧ c ≠ 'n' ∧ c ≠ 't' ∧ c ≠ 'f' ∧ c ≠ '"' ∧ c ≠ '[' ∧ c ≠ '\x7b'
      ∧ c ≠ ']' ∧ c ≠ '\x7d' ∧ c ≠ ',' ∧ c ≠ ':' := by
  obtain ⟨h1, h2⟩ := isDig_bounds h
  have hsp : c ≠ ' ' := by intro hc; subst hc; exact absurd h1 (by decide)
  have hnl : c ≠ '\n' := by intro hc; subst hc; exact absurd h1 (by decide)
  have hta : c ≠ '\t' := by intro hc; subst hc; exact absurd h1 (by decide)
  have hcr : c ≠ '\r' := by intro hc; subst hc; exact absurd h1 (by decide)
  refine ⟨by simp [isWsChar, hsp, hnl, hta, hcr], ?_, ?_, ?_, ?_, ?_, ?_, ?_, ?_, ?_, ?_⟩
    <;> intro hc <;> subst hc
  · exact absurd h2 (by decide)
  · exact absurd h2 (by decide)
  · exact absurd h2 (by decide)
  · exact absurd h1 (by decide)
  · exact absurd h2 (by decide)
  · exact absurd h2 (by decide)
  · exact absurd h2 (by decide)
  · exact absurd h2 (by decide)
  · exact absurd h1 (by decide)
  · exact absurd h2 (by decide)

/-- The first character of any printed value: never whitespace, never a
closing bracket or brace. -/
theorem ppVal_head (p : Bool) (i : Nat) (v : Json) : ∃ c t, ppVal p i v = c :: t ∧
    isWsChar c = false ∧ c ≠ ']' ∧ c ≠ '\x7d' := by
  cases v with
  | null =>
      refine ⟨'n', ['u', 'l', 'l'], ?_, by decide, by decide, by decide⟩
      simp only [ppVal]
  | bool b =>
      cases b with
      | true =>
          refine ⟨'t', ['r', 'u', 'e'], ?_, by decide, by decide, by decide⟩
          simp [ppVal]
      | false =>
          refine ⟨'f', ['a', 'l', 's', 'e'], ?_, by decide, by decide, by decide⟩
          simp [ppVal]
  | num n =>
      by_cases hn : n < 0
      · refine ⟨'-', natChars n.natAbs, ?_, by decide, by decide, by decide⟩
        simp only [ppVal, intChars, if_pos hn]
      · obtain ⟨c, t, hct⟩ := List.exists_cons_of_ne_nil (natChars_ne_nil n.natAbs)
        have hdig : isDig c = true := by
          apply natChars_digits n.natAbs
          rw [hct]
          simp
        obtain ⟨hws, _, _, _, _, _, _, hrb, hrc, _, _⟩ := isDig_facts hdig
        refine ⟨c, t, ?_, hws, hrb, hrc⟩
        simp only [ppVal, intChars, if_neg hn, hct]
  | str s =>
      refine ⟨'"', escapeList s.data ++ ['"'], ?_, by decide, by decide, by decide⟩
      simp only [ppVal, quoteChars]
  | arr xs =>
      cases xs with
      | nil =>
          refine ⟨'[', [']'], ?_, by decide, by decide, by decide⟩
          simp only [ppVal]
      | cons x xs =>
          refine ⟨'[', nlChars p (i + 2) ++ ppVal p (i + 2) x ++ ppArrRest p (i + 2) xs
            ++ nlChars p i ++ [']'], ?_, by decide, by decide, by decide⟩
          simp only [ppVal]
  | obj fs =>
      cases fs with
      | nil =>
          refine ⟨'\x7b', ['\x7d'], ?_, by decide, by decide, by decide⟩
          simp only [ppVal]
      | cons f fs =>
          refine ⟨'\x7b', nlChars p (i + 2) ++ ppFld p (i + 2) f ++ ppObjRest p (i + 2) fs
            ++ nlChars p i ++ ['\x7d'], ?_, by decide, by decide, by decide⟩
          simp only [ppVal]

theorem noDigHead_arr (p : Bool) (i j : Nat) (xs : List Json) (rest : List Char) :
    noDigHead (ppArrRest p i xs ++ nlChars p j ++ ']' :: rest) := by
  cases xs <;> cases p <;>
    simp [ppArrRest, nlChars, padChars, noDigHead, isDig]

theorem noDigHead_obj (p : Bool) (i j : Nat) (fs : List (String × Json)) (rest : List Char) :
    noDigHead (ppObjRest p i fs ++ nlChars p j ++ '\x7d' :: rest) := by
  cases fs <;> cases p <;>
    simp [ppObjRest, nlChars, padChars, noDigHead, isDig]

theorem pVal_congr_ws {cs cs' : List Char} (fuel : Nat) (h : skipWs cs = skipWs cs') :
    pVal fuel cs = pVal fuel cs' := by
  cases fuel with
  | zero => simp [pVal]
  | succ f => simp only [pVal, h]

theorem pFld_congr_ws {cs cs' : List Char} (fuel : Nat) (h : skipWs cs = skipWs cs') :
    pFld fuel cs = pFld fuel cs' := by
  cases fuel with
  | zero => simp [pFld]
  | succ f => simp only [pFld, h]

theorem skipWs_space (cs : List Char) : skipWs (' ' :: cs) = skipWs cs := by
  simp [skipWs, isWsChar]

set_option maxHeartbeats 1000000 in
theorem parse_pp_all : ∀ fuel : Nat,
    (∀ (v : Json) (p : Bool) (i : Nat) (rest : List Char), jsize v ≤ fuel → noDigHead rest →
      pVal fuel (ppVal p i v ++ rest) = some (v, rest)) ∧
    (∀ (xs : List Json) (p : Bool) (i j : Nat) (rest : List Char), jsizeL xs < fuel →
      pArrTail fuel (ppArrRest p i xs ++ (nlChars p j ++ (']' :: rest))) = some (xs, rest)) ∧
    (∀ (k : String) (v : Json) (p : Bool) (i : Nat) (rest : List Char), jsize v < fuel →
      noDigHead rest → pFld fuel (ppFld p i (k, v) ++ rest) = some ((k, v), rest)) ∧
    (∀ (fs : List (String × Json)) (p : Bool) (i j : Nat) (rest : List Char), jsizeF fs < fuel →
      pObjTail fuel (ppObjRest p i fs ++ (nlChars p j ++ ('\x7d' :: rest))) = some (fs, rest)) := by
  intro fuel
  induction fuel with
  | zero =>
      refine ⟨?_, ?_, ?_, ?_⟩
      · intro v p i rest hsz _
        exact absurd hsz (by have := jsize_pos v; omega)
      · intro xs p i j rest hsz
        exact absurd hsz (by omega)
      · intro k v p i rest hsz _
        exact absurd hsz (by omega)
      · intro fs p i j rest hsz
        exact absurd hsz (by omega)
  | succ fuel ih =>
      obtain ⟨ihV, ihA, ihF, ihO⟩ := ih
      refine ⟨?_, ?_, ?_, ?_⟩
      · -- pVal
        intro v p i rest hsz hrest
        cases v with
        | null =>
            simp only [ppVal, List.cons_append, List.nil_append, pVal]
            rw [skipWs_cons_of_neg _ (by decide)]
            simp [pAfterWs, pNull]
        | bool b =>
            cases b with
            | true =>
                rw [show ppVal p i (.bool true) = ['t', 'r', 'u', 'e'] by simp [ppVal]]
                simp only [List.cons_append, List.nil_append, pVal]
                rw [skipWs_cons_of_neg _ (by decide)]
                simp [pAfterWs, pTrue]
            | false =>
                rw [show ppVal p i (.bool false) = ['f', 'a', 'l', 's', 'e'] by simp [ppVal]]
                simp only [List.cons_append, List.nil_append, pVal]
                rw [skipWs_cons_of_neg _ (by decide)]
                simp [pAfterWs, pFalse]
        | num n =>
            have key := pInt_intChars n rest hrest
            by_cases hn : n < 0
            · simp only [ppVal, intChars, if_pos hn, List.cons_append, pVal] at key ⊢
              rw [skipWs_cons_of_neg _ (by decide)]
              simp only [pAfterWs]
              rw [if_neg (by decide), if_neg (by decide), if_neg (by decide), if_neg (by decide),
                if_neg (by decide), if_neg (by decide), if_pos (by decide)]
              rw [key]
              simp only [Option.map_some']
            · obtain ⟨c, t, hct⟩ := List.exists_cons_of_ne_nil (natChars_ne_nil n.natAbs)
              have hdig : isDig c = true := by
                apply natChars_digits n.natAbs
                rw [hct]
                simp
              obtain ⟨hws, hn', ht', hf', hq', hlb, hlc, _, _, _, _⟩ := isDig_facts hdig
              simp only [ppVal, intChars, if_neg hn, hct, List.cons_append, pVal] at key ⊢
              rw [skipWs_cons_of_neg _ hws]
              simp only [pAfterWs]
              rw [if_neg hn', if_neg ht', if_neg hf', if_neg hq', if_neg hlb, if_neg hlc,
                if_pos (by simp [hdig])]
              rw [key]
              simp only [Option.map_some']
        | str s =>
            simp only [ppVal, quoteChars, List.cons_append, List.nil_append, pVal]
            rw [skipWs_cons_of_neg _ (by decide)]
            simp only [pAfterWs]
            rw [if_neg (by decide), if_neg (by decide), if_neg (by decide), if_pos trivial]
            rw [List.append_assoc, List.singleton_append, pStr_escape]
            simp only [Option.map_some']
        | arr xs =>
            cases xs with
            | nil =>
                simp only [ppVal, List.cons_append, List.nil_append, pVal]
                rw [skipWs_cons_of_neg _ (by decide)]
                simp only [pAfterWs]
                rw [if_neg (by decide), if_neg (by decide), if_neg (by decide),
                  if_neg (by decide), if_pos trivial]
                rw [skipWs_cons_of_neg _ (by decide)]
                simp [pArrStart]
            | cons x xs =>
                simp only [jsize, jsizeL] at hsz
                have hx : jsize x ≤ fuel := by omega
                have hxs : jsizeL xs < fuel := by have := jsize_pos x; omega
                simp only [ppVal, List.cons_append, List.append_assoc, List.singleton_append,
                  List.nil_append, pVal]
                rw [skipWs_cons_of_neg _ (by decide)]
                simp only [pAfterWs]
                rw [if_neg (by decide), if_neg (by decide), if_neg (by decide),
                  if_neg (by decide), if_pos trivial]
                rw [skipWs_nl]
                obtain ⟨c, t, hct, hws, hrb, _⟩ := ppVal_head p (i + 2) x
                rw [hct, List.cons_append, skipWs_cons_of_neg _ hws]
                simp only [pArrStart]
                rw [if_neg hrb]
                rw [← List.cons_append, ← hct]
                have hnd : noDigHead (ppArrRest p (i + 2) xs
                    ++ (nlChars p i ++ (']' :: rest))) := by
                  have := noDigHead_arr p (i + 2) i xs rest
                  rwa [List.append_assoc] at this
                rw [ihV x p (i + 2) _ hx hnd]
                simp only [Option.some_bind]
                rw [ihA xs p (i + 2) i rest hxs]
                simp only [Option.map_some']
        | obj fs =>
            cases fs with
            | nil =>
                simp only [ppVal, List.cons_append, List.nil_append, pVal]
                rw [skipWs_cons_of_neg _ (by decide)]
                simp only [pAfterWs]
                rw [if_neg (by decide), if_neg (by decide), if_neg (by decide),
                  if_neg (by decide), if_neg (by decide), if_pos trivial]
                rw [skipWs_cons_of_neg _ (by decide)]
                simp [pObjStart]
            | cons f fs =>
                obtain ⟨k, v⟩ := f
                simp only [jsize, jsizeF] at hsz
                have hv : jsize v < fuel := by have := jsize_pos v; omega
                have hfs : jsizeF fs < fuel := by have := jsize_pos v; omega
                simp only [ppVal, List.cons_append, List.append_assoc, List.singleton_append,
                  List.nil_append, pVal]
                rw [skipWs_cons_of_neg _ (by decide)]
                simp only [pAfterWs]
                rw [if_neg (by decide), if_neg (by decide), if_neg (by decide),
                  if_neg (by decide), if_neg (by decide), if_pos trivial]
                rw [skipWs_nl]
                rw [show ppFld p (i + 2) (k, v) ++ (ppObjRest p (i + 2) fs
                    ++ (nlChars p i ++ ('\x7d' :: rest)))
                  = '"' :: ((escapeList k.data ++ ['"']) ++ (colonChars p ++ (ppVal p (i + 2) v
                    ++ (ppObjRest p (i + 2) fs ++ (nlChars p i ++ ('\x7d' :: rest)))))) by
                  simp [ppFld, quoteChars]]
                rw [skipWs_cons_of_neg _ (by decide)]
                simp only [pObjStart]
                rw [if_neg (by decide)]
                rw [show ('"' : Char) :: ((escapeList k.data ++ ['"']) ++ (colonChars p
                    ++ (ppVal p (i + 2) v ++ (ppObjRest p (i + 2) fs
                    ++ (nlChars p i ++ ('\x7d' :: rest))))))
                  = ppFld p (i + 2) (k, v) ++ (ppObjRest p (i + 2) fs
                    ++ (nlChars p i ++ ('\x7d' :: rest))) by
                  simp [ppFld, quoteChars]]
                have hnd : noDigHead (ppObjRest p (i + 2) fs
                    ++ (nlChars p i ++ ('\x7d' :: rest))) := by
                  have := noDigHead_obj p (i + 2) i fs rest
                  rwa [List.append_assoc] at this
                rw [ihF k v p (i + 2) _ hv hnd]
                simp only [Option.some_bind]
                rw [ihO fs p (i + 2) i rest hfs]
                simp only [Option.map_some']
      · -- pArrTail
        intro xs p i j rest hsz
        cases xs with
        | nil =>
            simp only [ppArrRest, List.nil_append, pArrTail]
            rw [skipWs_nl, skipWs_cons_of_neg _ (by decide)]
            simp [pArrTailAfterWs]
        | cons x xs =>
            simp only [jsizeL] at hsz
            have hx : jsize x ≤ fuel := by omega
            have hxs : jsizeL xs < fuel := by have := jsize_pos x; omega
            simp only [ppArrRest, List.cons_append, List.append_assoc, pArrTail]
            rw [skipWs_cons_of_neg _ (by decide)]
            simp only [pArrTailAfterWs]
            rw [if_neg (by decide), if_pos trivial]
            have hnd : noDigHead (ppArrRest p i xs ++ (nlChars p j ++ (']' :: rest))) := by
              have := noDigHead_arr p i j xs rest
              rwa [List.append_assoc] at this
            rw [pVal_congr_ws fuel (skipWs_nl p i _), ihV x p i _ hx hnd]
            simp only [Option.some_bind]
            rw [ihA xs p i j rest hxs]
            simp only [Option.map_some']
      · -- pFld
        intro k v p i rest hsz hrest
        simp only [ppFld, quoteChars, List.cons_append, List.append_assoc,
          List.singleton_append, List.nil_append, pFld]
        rw [skipWs_cons_of_neg _ (by decide)]
        simp only [pFldAfterWs]
        rw [if_pos trivial]
        rw [pStr_escape]
        simp only [Option.some_bind]
        cases p with
        | false =>
            rw [show colonChars false = [':'] from rfl]
            rw [List.singleton_append, skipWs_cons_of_neg _ (by decide)]
            simp only [pFldColon]
            rw [if_pos trivial]
            rw [ihV v false i rest (by omega) hrest]
            simp only [Option.map_some']
        | true =>
            rw [show colonChars true = [':', ' '] from rfl]
            rw [List.cons_append, List.cons_append, List.nil_append,
              skipWs_cons_of_neg _ (by decide)]
            simp only [pFldColon]
            rw [if_pos trivial]
            rw [pVal_congr_ws fuel (skipWs_space _), ihV v true i rest (by omega) hrest]
            simp only [Option.map_some']
      · -- pObjTail
        intro fs p i j rest hsz
        cases fs with
        | nil =>
            simp only [ppObjRest, List.nil_append, pObjTail]
            rw [skipWs_nl, skipWs_cons_of_neg _ (by decide)]
            simp [pObjTailAfterWs]
        | cons f fs =>
            obtain ⟨k, v⟩ := f
            simp only [jsizeF] at hsz
            have hv : jsize v < fuel := by omega
            have hfs : jsizeF fs < fuel := by have := jsize_pos v; omega
            simp only [ppObjRest, List.cons_append, List.append_assoc, pObjTail]
            rw [skipWs_cons_of_neg _ (by decide)]
            simp only [pObjTailAfterWs]
            rw [if_neg (by decide), if_pos trivial]
            have hnd : noDigHead (ppObjRest p i fs ++ (nlChars p j ++ ('\x7d' :: rest))) := by
              have := noDigHead_obj p i j fs rest
              rwa [List.append_assoc] at this
            rw [pFld_congr_ws fuel (skipWs_nl p i _), ihF k v p i _ hv hnd]
            simp only [Option.some_bind]
            rw [ihO fs p i j rest hfs]
            simp only [Option.map_some']

mutual

theorem jsize_le_ppVal (p : Bool) (i : Nat) : ∀ v : Json, jsize v ≤ (ppVal p i v).length
  | .null => by simp [jsize, ppVal]
  | .bool b => by cases b <;> simp [jsize, ppVal]
  | .num n => by
      rcases List.exists_cons_of_ne_nil (natChars_ne_nil n.natAbs) with ⟨c, t, hct⟩
      by_cases hn : n < 0 <;> simp [jsize, ppVal, intChars, hn, hct]
  | .str s => by simp [jsize, quoteChars, ppVal]
  | .arr [] => by simp [jsize, jsizeL, ppVal]
  | .arr (x :: xs) => by
      have h1 := jsize_le_ppVal p (i + 2) x
      have h2 := jsizeL_le_ppArrRest p (i + 2) xs
      simp only [jsize, jsizeL, ppVal, List.length_cons, List.length_append]
      omega
  | .obj [] => by simp [jsize, jsizeF, ppVal]
  | .obj (f :: fs) => by
      have h1 := jsize_fld_le_ppFld p (i + 2) f
      have h2 := jsizeF_le_ppObjRest p (i + 2) fs
      simp only [jsize, jsizeF, ppVal, List.length_cons, List.length_append]
      omega

theorem jsize_fld_le_ppFld (p : Bool) (i : Nat) :
    ∀ f : String × Json, 1 + jsize f.2 ≤ (ppFld p i f).length
  | (k, v) => by
      have h1 := jsize_le_ppVal p i v
      cases p <;>
        simp only [ppFld, quoteChars, colonChars, List.length_append, List.length_cons] <;>
        omega

theorem jsizeL_le_ppArrRest (p : Bool) (i : Nat) :
    ∀ xs : List Json, jsizeL xs ≤ (ppArrRest p i xs).length
  | [] => by simp [jsizeL, ppArrRest]
  | x :: xs => by
      have h1 := jsize_le_ppVal p i x
      have h2 := jsizeL_le_ppArrRest p i xs
      simp only [jsizeL, ppArrRest, List.length_cons, List.length_append]
      omega

theorem jsizeF_le_ppObjRest (p : Bool) (i : Nat) :
    ∀ fs : List (String × Json), jsizeF fs ≤ (ppObjRest p i fs).length
  | [] => by simp [jsizeF, ppObjRest]
  | f :: fs => by
      have h1 := jsize_fld_le_ppFld p i f
      have h2 := jsizeF_le_ppObjRest p i fs
      simp only [jsizeF, ppObjRest, List.length_cons, List.length_append]
      omega

end

/-- Round trip for the pretty printer: parsing what the server's success
path serializes (`JSON.stringify(v, null, 2)`) yields the original value. -/
theorem parseJson_stringifyPP (v : Json) : parseJson (stringifyPP v) = some v := by
  have hfuel : jsize v ≤ (ppVal true 0 v).length + 1 := by
    have := jsize_le_ppVal true 0 v
    omega
  have h := (parse_pp_all ((ppVal true 0 v).length + 1)).1 v true 0 [] hfuel trivial
  rw [List.append_nil] at h
  simp only [parseJson, stringifyPP]
  rw [show (String.mk (ppVal true 0 v)).length = (ppVal true 0 v).length from rfl]
  rw [h]
  simp [skipWs]

/-- Round trip for the compact printer (`JSON.stringify(v)`), the form used
in error messages. -/
theorem parseJson_stringifyC (v : Json) : parseJson (stringifyC v) = some v := by
  have hfuel : jsize v ≤ (ppVal false 0 v).length + 1 := by
    have := jsize_le_ppVal false 0 v
    omega
  have h := (parse_pp_all ((ppVal false 0 v).length + 1)).1 v false 0 [] hfuel trivial
  rw [List.append_nil] at h
  simp only [parseJson, stringifyC]
  rw [show (String.mk (ppVal false 0 v)).length = (ppVal false 0 v).length from rfl]
  rw [h]
  simp [skipWs]

/-! ## The server model (src/index.ts)

The dispatcher below is a shallow embedding of the `CallToolRequestSchema`
handler. The single HTTP round trip of each invocation is represented by an
oracle from requests to responses; `DispatchResult.calls` records every
request actually issued, in order, so "no network access" is `calls = []`.
-/

/-- Field lookup in a JSON object (JS property access on a plain object). -/
def jlookup (k : String) : List (String × Json) → Option Json
  | [] => none
  | (k', v) :: fs => if k' = k then some v else jlookup k fs

/-- JS property access `j.k` on an arbitrary defined value: `undefined`
(`none`) unless `j` is an object with the field. -/
def jsGet (j : Json) (k : String) : Option Json :=
  match j with
  | .obj fs => jlookup k fs
  | _ => none

/-- JS truthiness (`none` is `undefined`). -/
def jsTruthy : Option Json → Bool
  | none => false
  | some .null => false
  | some (.bool b) => b
  | some (.num n) => n != 0
  | some (.str s) => s != ""
  | some (.arr _) => true
  | some (.obj _) => true

mutual

/-- JavaScript string conversion of a defined value, as a template literal
performs it. -/
def jsToStr : Json → String
  | .null => "null"
  | .bool true => "true"
  | .bool false => "false"
  | .num n => String.mk (intChars n)
  | .str s => s
  | .arr xs => arrJoin xs
  | .obj _ => "[object Object]"

/-- `Array.prototype.toString`: elements joined with commas. -/
def arrJoin : List Json → String
  | [] => ""
  | [x] => elemStr x
  | x :: xs => elemStr x ++ "," ++ arrJoin xs

/-- An element inside `Array.prototype.toString`: `null` becomes empty. -/
def elemStr : Json → String
  | .null => ""
  | v => jsToStr v

end

/-- Template-literal conversion including `undefined`. -/
def jsToStrOpt : Option Json → String
  | none => "undefined"
  | some v => jsToStr v

/-- An HTTP response as `coolifyApiCall` observes it through `fetch`:
the `ok` flag, status, status text, and the result of `response.json()`
(`none` when the body is not parseable JSON). -/
structure HttpResponse where
  ok : Bool
  status : Nat
  statusText : String
  bodyJson : Option Json

/-- One HTTP request issued through `coolifyApiCall`: endpoint path (with
query string), method, and the JSON body actually sent (`body ?
JSON.stringify(body) : undefined`, line 34). -/
structure ApiCall where
  endpoint : String
  method : String
  body : Option Json

/-- A zod `invalid_type` validation issue. -/
structure ZodIssue where
  expected : String
  received : String
  path : List String
  message : String
deriving DecidableEq

/-- The JSON serialization of one zod issue. -/
def issueJson (is : ZodIssue) : Json :=
  .obj [("code", .str "invalid_type"), ("expected", .str is.expected),
    ("received", .str is.received), ("path", .arr (is.path.map .str)),
    ("message", .str is.message)]

/-- The JSON serialization of `error.errors`. -/
def issuesJson (issues : List ZodIssue) : Json := .arr (issues.map issueJson)

/-- The errors the handler can throw, by origin. `successBodyNotJson` and
`destructureTypeError` are raised by the runtime (`response.json()` on a
2xx non-JSON body; destructuring `undefined`/`null`), not constructed by
src/index.ts, so they carry no message of this code's making. -/
inductive ThrownError where
  | invalidInput (issues : List ZodIssue)
  | unknownTool (name : String)
  | apiError (status : Nat) (statusText : String) (details : Json)
  | invalidLogType (t : String)
  | successBodyNotJson
  | destructureTypeError

/-- The `message` of the `Error` thrown in each case the source constructs
itself (lines 39-43, 292, 304, 308); empty for the two runtime-raised
errors, whose messages this code does not choose. -/
def errorMessage : ThrownError → String
  | .invalidInput issues => "Invalid input: " ++ stringifyC (issuesJson issues)
  | .unknownTool name => "Unknown tool: " ++ name
  | .apiError status statusText details =>
      stringifyC (.obj [("error", .str ("Coolify API error: " ++ toString status ++ " "
        ++ statusText)), ("status", .num (status : Int)), ("details", details)])
  | .invalidLogType t => "Invalid log type: " ++ t
  | .successBodyNotJson => ""
  | .destructureTypeError => ""

/-- The response side of `coolifyApiCall` (lines 37-46): a non-2xx response
becomes a structured error whose `details` is the body parsed as JSON or
`{}`; a 2xx response yields its parsed JSON body, and a 2xx body that is
not JSON propagates the JSON parser's own error. -/
def coolifyApiCall (resp : HttpResponse) : Except ThrownError Json :=
  if resp.ok then
    match resp.bodyJson with
    | some v => .ok v
    | none => .error .successBodyNotJson
  else
    .error (.apiError resp.status resp.statusText (resp.bodyJson.getD (.obj [])))

/-- The documented default base URL (line 25). -/
def defaultBaseUrl : String := "https://coolify.stuartmason.co.uk"

/-- `s.replace(/\/$/, '')`: strip one trailing slash. -/
def stripTrailingSlash (s : String) : String :=
  match s.data.getLast? with
  | some '/' => String.mk s.data.dropLast
  | _ => s

/-- `process.env.COOLIFY_BASE_URL?.replace(/\/$/, '') || default`
(line 25): the stripped configured value, or the default when the variable
is unset or the stripped value is the empty string (which is falsy). -/
def resolveBaseUrl : Option String → String
  | none => defaultBaseUrl
  | some s => if stripTrailingSlash s = "" then defaultBaseUrl else stripTrailingSlash s

/-- The full request URL (line 26): `${baseUrl}/api/v1${endpoint}`. -/
def requestUrl (env : Option String) (endpoint : String) : String :=
  resolveBaseUrl env ++ "/api/v1" ++ endpoint

/-- zod's name for the type of a value (the `received` of an issue). -/
def zodTypeName : Option Json → String
  | none => "undefined"
  | some .null => "null"
  | some (.bool _) => "boolean"
  | some (.num _) => "number"
  | some (.str _) => "string"
  | some (.arr _) => "array"
  | some (.obj _) => "object"

/-- An `invalid_type` issue with zod's message convention (`Required` for a
missing value). -/
def mkIssue (expected : String) (received : Option Json) (path : List String) : ZodIssue :=
  { expected := expected
    received := zodTypeName received
    path := path
    message := if zodTypeName received = "undefined" then "Required"
      else "Expected " ++ expected ++ ", received " ++ zodTypeName received }

/-- `UuidSchema.parse` (lines 50-52): an object with a required string
field `uuid`; throws a `ZodError` otherwise. -/
def uuidSchemaParse : Option Json → Except (List ZodIssue) String
  | some (.obj fs) =>
      match jlookup "uuid" fs with
      | some (.str u) => .ok u
      | other => .error [mkIssue "string" other ["uuid"]]
  | other => .error [mkIssue "object" other []]

/-- The deploy arguments after validation (`DeploySchema`, lines 54-58). -/
structure DeployParams where
  tag : Option String
  uuid : Option String
  force : Option Bool
deriving DecidableEq

/-- One optional string field: its value and the issues it contributes. -/
def optStrIssues (fs : List (String × Json)) (k : String) :
    Option String × List ZodIssue :=
  match jlookup k fs with
  | none => (none, [])
  | some (.str s) => (some s, [])
  | other => (none, [mkIssue "string" other [k]])

/-- One optional boolean field: its value and the issues it contributes. -/
def optBoolIssues (fs : List (String × Json)) (k : String) :
    Option Bool × List ZodIssue :=
  match jlookup k fs with
  | none => (none, [])
  | some (.bool b) => (some b, [])
  | other => (none, [mkIssue "boolean" other [k]])

/-- `DeploySchema.parse`: an object with optional string `tag`, optional
string `uuid` and optional boolean `force`; collects all field issues. -/
def deploySchemaParse : Option Json → Except (List ZodIssue) DeployParams
  | some (.obj fs) =>
      let t := optStrIssues fs "tag"
      let u := optStrIssues fs "uuid"
      let f := optBoolIssues fs "force"
      let issues := t.2 ++ u.2 ++ f.2
      if issues = [] then .ok ⟨t.1, u.1, f.1⟩ else .error issues
  | other => .error [mkIssue "object" other []]

/-- The `URLSearchParams` pairs of the deploy branch (lines 265-268): each
`append` is guarded by the truthiness of the corresponding field, so an
absent field, an empty string and `force: false` all contribute nothing. -/
def deployQueryPairs (dp : DeployParams) : List (String × String) :=
  (match dp.tag with
   | some t => if t = "" then [] else [("tag", t)]
   | none => []) ++
  (match dp.uuid with
   | some u => if u = "" then [] else [("uuid", u)]
   | none => []) ++
  (match dp.force with
   | some true => [("force", "true")]
   | _ => [])

/-- UTF-8 bytes of a character. -/
def utf8Bytes (c : Char) : List Nat :=
  let n := c.toNat
  if n < 128 then [n]
  else if n < 2048 then [192 + n / 64, 128 + n % 64]
  else if n < 65536 then [224 + n / 4096, 128 + n / 64 % 64, 128 + n % 64]
  else [240 + n / 262144, 128 + n / 4096 % 64, 128 + n / 64 % 64, 128 + n % 64]

/-- Upper-case hexadecimal digit character. -/
def hexDigitU (n : Nat) : Char := if n < 10 then Char.ofNat (48 + n) else Char.ofNat (55 + n)

/-- Percent-encode a byte sequence. -/
def encBytes : List Nat → List Char
  | [] => []
  | b :: bs => '%' :: hexDigitU (b / 16) :: hexDigitU (b % 16) :: encBytes bs

/-- `application/x-www-form-urlencoded` serialization of one character as
`URLSearchParams.toString` performs it: `*`, `-`, `.`, `_` and
alphanumerics unchanged, space as `+`, everything else percent-encoded
byte-wise. -/
def encChar (c : Char) : List Char :=
  if c = ' ' then ['+']
  else if (65 ≤ c.toNat && c.toNat ≤ 90) || (97 ≤ c.toNat && c.toNat ≤ 122)
      || (48 ≤ c.toNat && c.toNat ≤ 57) || c = '*' || c = '-' || c = '.' || c = '_' then [c]
  else encBytes (utf8Bytes c)

/-- Encode every character. -/
def encList : List Char → List Char
  | [] => []
  | c :: cs => encChar c ++ encList cs

/-- URL-encode a string for a query component. -/
def urlEncode (s : String) : String := String.mk (encList s.data)

/-- `URLSearchParams.toString()`: `k=v` pairs joined with `&`. -/
def queryToString (pairs : List (String × String)) : String :=
  String.intercalate "&" (pairs.map fun kv => urlEncode kv.1 ++ "=" ++ urlEncode kv.2)

/-- The deploy endpoint (line 270): `/deploy?` plus the query string. -/
def deployEndpoint (dp : DeployParams) : String :=
  "/deploy?" ++ queryToString (deployQueryPairs dp)

/-- One content block of a tool response. -/
structure ContentBlock where
  type : String
  text : String
deriving DecidableEq

/-- What one invocation of the handler does: the HTTP requests it issued,
in order, and its outcome (a thrown error or the returned content). -/
structure DispatchResult where
  calls : List ApiCall
  outcome : Except ThrownError (List ContentBlock)

/-- Wrap a call result as the handler does on success:
`JSON.stringify(result, null, 2)` in a single `text` content block. -/
def wrapResult : Except ThrownError Json → Except ThrownError (List ContentBlock)
  | .ok v => .ok [⟨"text", stringifyPP v⟩]
  | .error e => .error e

/-- Issue one request and wrap its outcome. -/
def runCall (oracle : ApiCall → HttpResponse) (call : ApiCall) : DispatchResult :=
  ⟨[call], wrapResult (coolifyApiCall (oracle call))⟩

/-- A GET request with no body. -/
def getCall (endpoint : String) : ApiCall := ⟨endpoint, "GET", none⟩

/-- The registered tool names, in registry order (`ListToolsRequestSchema`
handler, lines 80-153). -/
def registryNames : List String :=
  ["list-resources", "list-applications", "get-application", "start-application",
    "stop-application", "restart-application", "list-services", "list-databases",
    "list-deployments", "deploy", "update-application", "get-logs"]

/-- A branch that validates with `UuidSchema.parse` and then issues the
request built from the uuid. -/
def uuidToolRun (oracle : ApiCall → HttpResponse) (args : Option Json)
    (mk : String → ApiCall) : DispatchResult :=
  match uuidSchemaParse args with
  | .ok uuid => runCall oracle (mk uuid)
  | .error issues => ⟨[], .error (.invalidInput issues)⟩

/-- Whether a value can be destructured (`const {x} = v`): anything
defined and non-null; destructuring `undefined` or `null` throws a
`TypeError`. -/
def destructurable : Option Json → Option Json
  | none => none
  | some .null => none
  | some j => some j

/-- The body of the `update-application` branch after destructuring
(lines 212-219): the uuid is interpolated into the path as-is (`undefined`
included) and the settings value is the PATCH body when truthy. -/
def updateApplicationCore (oracle : ApiCall → HttpResponse) (j : Json) : DispatchResult :=
  runCall oracle ⟨"/applications/" ++ jsToStrOpt (jsGet j "uuid"), "PATCH",
    if jsTruthy (jsGet j "settings") then jsGet j "settings" else none⟩

/-- The `update-application` branch (lines 211-220): a raw cast with NO
validation. -/
def updateApplicationRun (oracle : ApiCall → HttpResponse) (args : Option Json) :
    DispatchResult :=
  match destructurable args with
  | none => ⟨[], .error .destructureTypeError⟩
  | some j => updateApplicationCore oracle j

/-- The strict comparison `value === "literal"`. -/
def logTypeIs : Option Json → String → Bool
  | some (.str s), t => s = t
  | _, _ => false

/-- The body of the `get-logs` branch after destructuring (lines 280-300):
`lines` defaults to 100, is interpolated for the application branch and is
unused for the deployment branch. -/
def getLogsCore (oracle : ApiCall → HttpResponse) (j : Json) : DispatchResult :=
  if logTypeIs (jsGet j "type") "application" then
    runCall oracle (getCall ("/applications/" ++ jsToStrOpt (jsGet j "uuid")
      ++ "/logs?lines=" ++ jsToStr ((jsGet j "lines").getD (.num 100))))
  else if logTypeIs (jsGet j "type") "deployment" then
    runCall oracle (getCall ("/deployments/" ++ jsToStrOpt (jsGet j "uuid")))
  else ⟨[], .error (.invalidLogType (jsToStrOpt (jsGet j "type")))⟩

/-- The `get-logs` branch (lines 279-301): a raw cast with NO
validation. -/
def getLogsRun (oracle : ApiCall → HttpResponse) (args : Option Json) : DispatchResult :=
  match destructurable args with
  | none => ⟨[], .error .destructureTypeError⟩
  | some j => getLogsCore oracle j

/-- The `deploy` branch (lines 263-277): validate with `DeploySchema.parse`
and GET `/deploy?` with the assembled query string. -/
def deployRun (oracle : ApiCall → HttpResponse) (args : Option Json) : DispatchResult :=
  match deploySchemaParse args with
  | .ok dp => runCall oracle (getCall (deployEndpoint dp))
  | .error issues => ⟨[], .error (.invalidInput issues)⟩

/-- The `CallToolRequestSchema` handler (lines 155-312), branch by branch
in source order; the final branch is `default: throw new Error(...)`. -/
def dispatch (oracle : ApiCall → HttpResponse) (name : String) (args : Option Json) :
    DispatchResult :=
  if name = "list-resources" then runCall oracle (getCall "/resources")
  else if name = "list-applications" then runCall oracle (getCall "/applications")
  else if name = "get-application" then
    uuidToolRun oracle args fun u => getCall ("/applications/" ++ u)
  else if name = "start-application" then
    uuidToolRun oracle args fun u => getCall ("/applications/" ++ u ++ "/start")
  else if name = "stop-application" then
    uuidToolRun oracle args fun u => getCall ("/applications/" ++ u ++ "/stop")
  else if name = "update-application" then updateApplicationRun oracle args
  else if name = "restart-application" then
    uuidToolRun oracle args fun u => getCall ("/applications/" ++ u ++ "/restart")
  else if name = "list-services" then runCall oracle (getCall "/services")
  else if name = "list-databases" then runCall oracle (getCall "/databases")
  else if name = "list-deployments" then runCall oracle (getCall "/deployments")
  else if name = "deploy" then deployRun oracle args
  else if name = "get-logs" then getLogsRun oracle args
  else ⟨[], .error (.unknownTool name)⟩

/-! ## Helper facts about the model -/

/-- A fixed all-purpose success response, used to instantiate oracles. -/
def okOracle : ApiCall → HttpResponse := fun _ => ⟨true, 200, "OK", some .null⟩

/-- The validation the dispatcher itself performs for a tool: the zod parse
it runs, when it runs one (`UuidSchema.parse` for the four validating
uuid tools, `DeploySchema.parse` for deploy), and its issues on failure.
`update-application` and `get-logs` run no validation. -/
def schemaParseFor (name : String) (args : Option Json) : Option (List ZodIssue) :=
  if name = "get-application" ∨ name = "start-application" ∨ name = "stop-application"
      ∨ name = "restart-application" then
    match uuidSchemaParse args with
    | .error issues => some issues
    | .ok _ => none
  else if name = "deploy" then
    match deploySchemaParse args with
    | .error issues => some issues
    | .ok _ => none
  else none

/-- Claim C8's wording of the base URL: configured value with a trailing
slash stripped, default only when the value is unset. (A spec-side
definition, for comparison with `resolveBaseUrl` from the code.) -/
def claimBaseUrl : Option String → String
  | none => defaultBaseUrl
  | some s => stripTrailingSlash s

theorem runCall_ok (resp : HttpResponse) (v : Json) (hok : resp.ok = true)
    (hbody : resp.bodyJson = some v) (call : ApiCall) :
    runCall (fun _ => resp) call = ⟨[call], .ok [⟨"text", stringifyPP v⟩]⟩ := by
  simp [runCall, coolifyApiCall, hok, hbody, wrapResult]

/-! ## The claims -/

/-- Claim C1 (code bug): the claim says every UUID-keyed tool rejects a
missing `uuid` with a validation error before any HTTP request, but the
`update-application` and `get-logs` branches perform no validation at all:
invoked with `{}` (respectively `{"type": "application"}`), each issues an
HTTP request with the literal string `undefined` interpolated into the
path, and no validation error is raised. -/
theorem uuid_validation_skipped_bug :
    ((dispatch okOracle "update-application" (some (.obj []))).calls
      = [⟨"/applications/undefined", "PATCH", none⟩]) ∧
    (∀ issues, (dispatch okOracle "update-application" (some (.obj []))).outcome
      ≠ .error (.invalidInput issues)) ∧
    ((dispatch okOracle "get-logs" (some (.obj [("type", .str "application")]))).calls
      = [⟨"/applications/undefined/logs?lines=100", "GET", none⟩]) := by
  refine ⟨?_, ?_, ?_⟩
  · simp [dispatch, updateApplicationRun, destructurable, updateApplicationCore, jsGet,
      jlookup, jsToStrOpt, jsTruthy, runCall, getCall, okOracle]
  · intro issues
    simp [dispatch, updateApplicationRun, destructurable, updateApplicationCore, jsGet,
      jlookup, jsToStrOpt, jsTruthy, runCall, getCall, okOracle, coolifyApiCall, wrapResult]
  · simp [dispatch, getLogsRun, destructurable, getLogsCore, jsGet, jlookup, jsToStrOpt,
      jsTruthy, runCall, getCall, logTypeIs, jsToStr, intChars, natChars, hexDigit, okOracle]

/-- Claim C2: a `get-logs` invocation with a string `uuid` and type
`application` issues GET `/applications/{uuid}/logs?lines={n}` where `n`
is the supplied `lines` value, or 100 when `lines` is absent; with type
`deployment` it issues GET `/deployments/{uuid}` whatever `lines` is. -/
theorem getLogs_branches (oracle : ApiCall → HttpResponse) (fs : List (String × Json))
    (u : String) (hu : jlookup "uuid" fs = some (.str u)) :
    (jlookup "type" fs = some (.str "application") →
      (jlookup "lines" fs = none →
        (dispatch oracle "get-logs" (some (.obj fs))).calls
          = [⟨"/applications/" ++ u ++ "/logs?lines=100", "GET", none⟩]) ∧
      (∀ n : Int, jlookup "lines" fs = some (.num n) →
        (dispatch oracle "get-logs" (some (.obj fs))).calls
          = [⟨"/applications/" ++ u ++ "/logs?lines=" ++ String.mk (intChars n),
              "GET", none⟩])) ∧
    (jlookup "type" fs = some (.str "deployment") →
      (dispatch oracle "get-logs" (some (.obj fs))).calls
        = [⟨"/deployments/" ++ u, "GET", none⟩]) := by
  refine ⟨fun htype => ⟨fun hlines => ?_, fun n hlines => ?_⟩, fun htype => ?_⟩
  · simp [dispatch, getLogsRun, destructurable, getLogsCore, jsGet, hu, htype, hlines,
      logTypeIs, jsToStrOpt, jsToStr, runCall, getCall, intChars, natChars, hexDigit]
    rw [String.append_assoc]
    rfl
  · simp [dispatch, getLogsRun, destructurable, getLogsCore, jsGet, hu, htype, hlines,
      logTypeIs, jsToStrOpt, jsToStr, runCall, getCall]
  · simp [dispatch, getLogsRun, destructurable, getLogsCore, jsGet, hu, htype,
      logTypeIs, jsToStrOpt, jsToStr, runCall, getCall]

/-- Claim C2 witness: a concrete application-logs call with `lines`
absent. -/
theorem getLogs_branches_witness :
    (dispatch okOracle "get-logs"
      (some (.obj [("uuid", .str "u1"), ("type", .str "application")]))).calls
      = [⟨"/applications/" ++ "u1" ++ "/logs?lines=100", "GET", none⟩] :=
  ((getLogs_branches okOracle [("uuid", .str "u1"), ("type", .str "application")]
    "u1" rfl).1 rfl).1 rfl

/-- Claim C4: a non-2xx response fails with the structured error whose
message is the JSON serialization of `{error, status, details}`: the
summary carries the status code and reason phrase, `status` the numeric
code, and `details` the body parsed as JSON or `{}`; parsing the message
recovers exactly that object. -/
theorem apiError_structure (resp : HttpResponse) (h : resp.ok = false) :
    coolifyApiCall resp
      = .error (.apiError resp.status resp.statusText (resp.bodyJson.getD (.obj []))) ∧
    errorMessage (.apiError resp.status resp.statusText (resp.bodyJson.getD (.obj [])))
      = stringifyC (.obj [("error", .str ("Coolify API error: " ++ toString resp.status
          ++ " " ++ resp.statusText)),
        ("status", .num (resp.status : Int)),
        ("details", resp.bodyJson.getD (.obj []))]) ∧
    parseJson (errorMessage (.apiError resp.status resp.statusText
        (resp.bodyJson.getD (.obj []))))
      = some (.obj [("error", .str ("Coolify API error: " ++ toString resp.status
          ++ " " ++ resp.statusText)),
        ("status", .num (resp.status : Int)),
        ("details", resp.bodyJson.getD (.obj []))]) := by
  refine ⟨by simp [coolifyApiCall, h], rfl, ?_⟩
  rw [show errorMessage (.apiError resp.status resp.statusText
      (resp.bodyJson.getD (.obj [])))
    = stringifyC (.obj [("error", .str ("Coolify API error: " ++ toString resp.status
        ++ " " ++ resp.statusText)),
      ("status", .num (resp.status : Int)),
      ("details", resp.bodyJson.getD (.obj []))]) from rfl]
  exact parseJson_stringifyC _

/-- Claim C4 witness: HTTP 404 with body `{"message":"not found"}` yields
status 404 and `details.message` equal to `"not found"`. -/
theorem apiError_structure_witness :
    coolifyApiCall ⟨false, 404, "Not Found", some (.obj [("message", .str "not found")])⟩
      = .error (.apiError 404 "Not Found" (.obj [("message", .str "not found")])) := by
  have h := (apiError_structure
    ⟨false, 404, "Not Found", some (.obj [("message", .str "not found")])⟩ rfl).1
  simpa using h

/-- Claim C8 counterexample: with the base URL configured as `"/"`, the
stripped value is empty and falsy, so the code falls back to the default;
the claim as stated predicts the empty base instead. -/
theorem requestUrl_claim_cex :
    requestUrl (some "/") "/health" ≠ claimBaseUrl (some "/") ++ "/api/v1" ++ "/health" := by
  decide

/-- Claim C8 amended: the request URL is base + `/api/v1` + path, where
base is the configured value with one trailing slash stripped when that
result is non-empty, and the documented default when the variable is unset
or the stripped value is empty. -/
theorem requestUrl_amended (env : Option String) (path : String) :
    (env = none → requestUrl env path = defaultBaseUrl ++ "/api/v1" ++ path) ∧
    (∀ s, env = some s → stripTrailingSlash s ≠ "" →
      requestUrl env path = stripTrailingSlash s ++ "/api/v1" ++ path) ∧
    (∀ s, env = some s → stripTrailingSlash s = "" →
      requestUrl env path = defaultBaseUrl ++ "/api/v1" ++ path) := by
  refine ⟨fun h => ?_, fun s h hs => ?_, fun s h hs => ?_⟩ <;> subst h
  · rfl
  · simp [requestUrl, resolveBaseUrl, hs]
  · simp [requestUrl, resolveBaseUrl, hs]

/-- Claim C8 amended witness: a configured base URL with a trailing slash
is stripped and used. -/
theorem requestUrl_amended_witness :
    stripTrailingSlash "https://my.coolify.example/" ≠ "" ∧
    requestUrl (some "https://my.coolify.example/") "/health"
      = stripTrailingSlash "https://my.coolify.example/" ++ "/api/v1" ++ "/health" :=
  ⟨by decide, (requestUrl_amended _ _).2.1 _ rfl (by decide)⟩

/-- Claim C10: for the deploy query assembly, `force: false`, an empty
`tag` and an empty `uuid` are falsy, so each produces exactly the same
remote call (same path, query string, method and body) as omitting the
field. -/
theorem deploy_falsy_fields_same_call :
    (∀ (u : Option String) (f : Option Bool),
      getCall (deployEndpoint ⟨some "", u, f⟩) = getCall (deployEndpoint ⟨none, u, f⟩)) ∧
    (∀ (t : Option String) (f : Option Bool),
      getCall (deployEndpoint ⟨t, some "", f⟩) = getCall (deployEndpoint ⟨t, none, f⟩)) ∧
    (∀ (t u : Option String),
      getCall (deployEndpoint ⟨t, u, some false⟩) = getCall (deployEndpoint ⟨t, u, none⟩)) :=
  ⟨fun _ _ => rfl, fun _ _ => rfl, fun _ _ => rfl⟩

lemma uuidToolRun_shape (oracle : ApiCall → HttpResponse) (args : Option Json)
    (mk : String → ApiCall) :
    (∃ c, uuidToolRun oracle args mk = runCall oracle c) ∨
    (uuidToolRun oracle args mk).calls = [] := by
  unfold uuidToolRun
  cases uuidSchemaParse args with
  | ok u => exact Or.inl ⟨_, rfl⟩
  | error is => exact Or.inr rfl

lemma updateApplicationRun_shape (oracle : ApiCall → HttpResponse) (args : Option Json) :
    (∃ c, updateApplicationRun oracle args = runCall oracle c) ∨
    (updateApplicationRun oracle args).calls = [] := by
  unfold updateApplicationRun
  cases destructurable args with
  | none => exact Or.inr rfl
  | some j => exact Or.inl ⟨_, rfl⟩

lemma getLogsRun_shape (oracle : ApiCall → HttpResponse) (args : Option Json) :
    (∃ c, getLogsRun oracle args = runCall oracle c) ∨
    (getLogsRun oracle args).calls = [] := by
  unfold getLogsRun
  cases destructurable args with
  | none => exact Or.inr rfl
  | some j =>
      show (∃ c, getLogsCore oracle j = runCall oracle c) ∨ (getLogsCore oracle j).calls = []
      unfold getLogsCore
      split_ifs <;> first
        | exact Or.inl ⟨_, rfl⟩
        | exact Or.inr rfl

lemma deployRun_shape (oracle : ApiCall → HttpResponse) (args : Option Json) :
    (∃ c, deployRun oracle args = runCall oracle c) ∨
    (deployRun oracle args).calls = [] := by
  unfold deployRun
  cases deploySchemaParse args with
  | ok dp => exact Or.inl ⟨_, rfl⟩
  | error is => exact Or.inr rfl

lemma dispatch_shape (oracle : ApiCall → HttpResponse) (name : String) (args : Option Json) :
    (∃ c, dispatch oracle name args = runCall oracle c) ∨
    (dispatch oracle name args).calls = [] := by
  unfold dispatch
  by_cases h1 : name = "list-resources"
  · rw [if_pos h1]
    exact Or.inl ⟨_, rfl⟩
  rw [if_neg h1]
  by_cases h2 : name = "list-applications"
  · rw [if_pos h2]
    exact Or.inl ⟨_, rfl⟩
  rw [if_neg h2]
  by_cases h3 : name = "get-application"
  · rw [if_pos h3]
    exact uuidToolRun_shape ..
  rw [if_neg h3]
  by_cases h4 : name = "start-application"
  · rw [if_pos h4]
    exact uuidToolRun_shape ..
  rw [if_neg h4]
  by_cases h5 : name = "stop-application"
  · rw [if_pos h5]
    exact uuidToolRun_shape ..
  rw [if_neg h5]
  by_cases h6 : name = "update-application"
  · rw [if_pos h6]
    exact updateApplicationRun_shape ..
  rw [if_neg h6]
  by_cases h7 : name = "restart-application"
  · rw [if_pos h7]
    exact uuidToolRun_shape ..
  rw [if_neg h7]
  by_cases h8 : name = "list-services"
  · rw [if_pos h8]
    exact Or.inl ⟨_, rfl⟩
  rw [if_neg h8]
  by_cases h9 : name = "list-databases"
  · rw [if_pos h9]
    exact Or.inl ⟨_, rfl⟩
  rw [if_neg h9]
  by_cases h10 : name = "list-deployments"
  · rw [if_pos h10]
    exact Or.inl ⟨_, rfl⟩
  rw [if_neg h10]
  by_cases h11 : name = "deploy"
  · rw [if_pos h11]
    exact deployRun_shape ..
  rw [if_neg h11]
  by_cases h12 : name = "get-logs"
  · rw [if_pos h12]
    exact getLogsRun_shape ..
  rw [if_neg h12]
  exact Or.inr rfl

/-- Claim C5: whenever an invocation's remote call returns a 2xx response
with JSON body `v`, the dispatcher returns exactly one content block of
type `text` whose text is `JSON.stringify(v, null, 2)`, and parsing that
text recovers `v` itself. -/
theorem success_single_block (name : String) (args : Option Json) (resp : HttpResponse)
    (v : Json) (hok : resp.ok = true) (hbody : resp.bodyJson = some v)
    (hcalled : (dispatch (fun _ => resp) name args).calls ≠ []) :
    (dispatch (fun _ => resp) name args).outcome = .ok [⟨"text", stringifyPP v⟩] ∧
    parseJson (stringifyPP v) = some v := by
  refine ⟨?_, parseJson_stringifyPP v⟩
  rcases dispatch_shape (fun _ => resp) name args with ⟨call, hc⟩ | hempty
  · rw [hc, runCall_ok resp v hok hbody call]
  · exact absurd hempty hcalled

/-- Claim C5 witness: HTTP 200 with body `{"id":"abc"}` yields one text
block that parses back to `{"id":"abc"}`. -/
theorem success_single_block_witness :
    (dispatch (fun _ => (⟨true, 200, "OK", some (.obj [("id", .str "abc")])⟩ : HttpResponse))
        "list-resources" none).outcome
      = .ok [⟨"text", stringifyPP (.obj [("id", .str "abc")])⟩] ∧
    parseJson (stringifyPP (.obj [("id", .str "abc")])) = some (.obj [("id", .str "abc")]) :=
  success_single_block "list-resources" none _ _ rfl rfl
    (by simp [dispatch, runCall])

lemma coolifyApiCall_ne_unknown (resp : HttpResponse) (n : String) :
    coolifyApiCall resp ≠ .error (.unknownTool n) := by
  unfold coolifyApiCall
  split_ifs
  · cases resp.bodyJson <;> simp
  · simp

lemma runCall_ne_unknown (oracle : ApiCall → HttpResponse) (call : ApiCall) (n : String) :
    (runCall oracle call).outcome ≠ .error (.unknownTool n) := by
  have h := coolifyApiCall_ne_unknown (oracle call) n
  simp only [runCall]
  cases hc : coolifyApiCall (oracle call) with
  | ok v => simp [wrapResult]
  | error e =>
      rw [hc] at h
      simp only [wrapResult]
      intro hcontra
      have he : e = .unknownTool n := by injection hcontra
      exact h (by rw [he])

lemma uuidToolRun_ne_unknown (oracle : ApiCall → HttpResponse) (args : Option Json)
    (mk : String → ApiCall) (n : String) :
    (uuidToolRun oracle args mk).outcome ≠ .error (.unknownTool n) := by
  unfold uuidToolRun
  cases uuidSchemaParse args with
  | ok u => exact runCall_ne_unknown oracle (mk u) n
  | error is => simp

lemma updateApplicationRun_ne_unknown (oracle : ApiCall → HttpResponse)
    (args : Option Json) (n : String) :
    (updateApplicationRun oracle args).outcome ≠ .error (.unknownTool n) := by
  unfold updateApplicationRun
  cases destructurable args with
  | none => simp
  | some j => exact runCall_ne_unknown oracle _ n

lemma getLogsRun_ne_unknown (oracle : ApiCall → HttpResponse) (args : Option Json)
    (n : String) :
    (getLogsRun oracle args).outcome ≠ .error (.unknownTool n) := by
  unfold getLogsRun
  cases destructurable args with
  | none => simp
  | some j =>
      show (getLogsCore oracle j).outcome ≠ .error (.unknownTool n)
      unfold getLogsCore
      split_ifs <;> first
        | exact runCall_ne_unknown oracle _ n
        | simp

lemma deployRun_ne_unknown (oracle : ApiCall → HttpResponse) (args : Option Json)
    (n : String) :
    (deployRun oracle args).outcome ≠ .error (.unknownTool n) := by
  unfold deployRun
  cases deploySchemaParse args with
  | ok dp => exact runCall_ne_unknown oracle _ n
  | error is => simp

/-- Claim C6: the registered names are distinct; an unregistered name
always fails with the unknown-tool error and issues no HTTP request; and
every registered name has a dispatch branch (its invocation never raises
the unknown-tool error). -/
theorem registry_dispatch_exhaustive :
    registryNames.Nodup ∧
    (∀ name, name ∉ registryNames → ∀ (oracle : ApiCall → HttpResponse) (args : Option Json),
      dispatch oracle name args = ⟨[], .error (.unknownTool name)⟩) ∧
    (∀ name, name ∈ registryNames → ∀ (oracle : ApiCall → HttpResponse) (args : Option Json),
      (dispatch oracle name args).outcome ≠ .error (.unknownTool name)) := by
  refine ⟨by decide, ?_, ?_⟩
  · intro name hname oracle args
    unfold dispatch
    rw [if_neg (show ¬ name = "list-resources" from fun e => hname (by rw [e]; decide))]
    rw [if_neg (show ¬ name = "list-applications" from fun e => hname (by rw [e]; decide))]
    rw [if_neg (show ¬ name = "get-application" from fun e => hname (by rw [e]; decide))]
    rw [if_neg (show ¬ name = "start-application" from fun e => hname (by rw [e]; decide))]
    rw [if_neg (show ¬ name = "stop-application" from fun e => hname (by rw [e]; decide))]
    rw [if_neg (show ¬ name = "update-application" from fun e => hname (by rw [e]; decide))]
    rw [if_neg (show ¬ name = "restart-application" from fun e => hname (by rw [e]; decide))]
    rw [if_neg (show ¬ name = "list-services" from fun e => hname (by rw [e]; decide))]
    rw [if_neg (show ¬ name = "list-databases" from fun e => hname (by rw [e]; decide))]
    rw [if_neg (show ¬ name = "list-deployments" from fun e => hname (by rw [e]; decide))]
    rw [if_neg (show ¬ name = "deploy" from fun e => hname (by rw [e]; decide))]
    rw [if_neg (show ¬ name = "get-logs" from fun e => hname (by rw [e]; decide))]
  · intro name hname oracle args
    fin_cases hname
    all_goals simp only [dispatch]
    all_goals norm_num
    all_goals first
      | exact runCall_ne_unknown oracle _ _
      | exact uuidToolRun_ne_unknown oracle args _ _
      | exact updateApplicationRun_ne_unknown oracle args _
      | exact deployRun_ne_unknown oracle args _
      | exact getLogsRun_ne_unknown oracle args _

/-- Claim C6 witness: invoking the unregistered name `delete-everything`
fails with the unknown-tool error and no HTTP request. -/
theorem registry_dispatch_exhaustive_witness :
    dispatch okOracle "delete-everything" none
      = ⟨[], .error (.unknownTool "delete-everything")⟩ :=
  registry_dispatch_exhaustive.2.1 "delete-everything" (by decide) okOracle none

lemma stringifyC_obj_head (l : List (String × Json)) :
    ∃ r, (stringifyC (.obj l)).data = '\x7b' :: r := by
  cases l with
  | nil => exact ⟨['\x7d'], by simp [stringifyC, ppVal]⟩
  | cons f fs =>
      exact ⟨nlChars false 2 ++ ppFld false 2 f ++ ppObjRest false 2 fs
        ++ nlChars false 0 ++ ['\x7d'], by simp [stringifyC, ppVal]⟩

lemma invalidInput_ne_apiError (issues : List ZodIssue) (st : Nat) (sx : String) (d : Json) :
    errorMessage (.invalidInput issues) ≠ errorMessage (.apiError st sx d) := by
  intro he
  obtain ⟨r, hr⟩ := stringifyC_obj_head [("error", .str ("Coolify API error: "
    ++ toString st ++ " " ++ sx)), ("status", .num (st : Int)), ("details", d)]
  have h2 := congrArg String.data he
  rw [show errorMessage (.apiError st sx d) = stringifyC (.obj [("error",
    .str ("Coolify API error: " ++ toString st ++ " " ++ sx)),
    ("status", .num (st : Int)), ("details", d)]) from rfl] at h2
  rw [hr] at h2
  rw [show (errorMessage (.invalidInput issues)).data
    = 'I' :: ("nvalid input: " ++ stringifyC (issuesJson issues)).data from rfl] at h2
  have : ('I' : Char) = '\x7b' := by injection h2
  exact absurd this (by decide)

lemma invalidInput_ne_unknownTool (issues : List ZodIssue) (n : String) :
    errorMessage (.invalidInput issues) ≠ errorMessage (.unknownTool n) := by
  intro he
  have h2 := congrArg String.data he
  rw [show (errorMessage (.invalidInput issues)).data
    = 'I' :: ("nvalid input: " ++ stringifyC (issuesJson issues)).data from rfl] at h2
  rw [show (errorMessage (.unknownTool n)).data
    = 'U' :: ("nknown tool: " ++ n).data from rfl] at h2
  have : ('I' : Char) = 'U' := by injection h2
  exact absurd this (by decide)

/-- Claim C7: whenever the dispatcher's schema validation rejects the
arguments, the invocation fails with the validation error kind: no HTTP
request is issued, the message embeds the structured issue list, and the
message is distinct from every remote-call error message and every
unknown-tool error message. -/
theorem validation_failure_distinct (oracle : ApiCall → HttpResponse) (name : String)
    (args : Option Json) (issues : List ZodIssue)
    (h : schemaParseFor name args = some issues) :
    dispatch oracle name args = ⟨[], .error (.invalidInput issues)⟩ ∧
    errorMessage (.invalidInput issues)
      = "Invalid input: " ++ stringifyC (issuesJson issues) ∧
    (∀ (st : Nat) (sx : String) (d : Json),
      errorMessage (.invalidInput issues) ≠ errorMessage (.apiError st sx d)) ∧
    (∀ n, errorMessage (.invalidInput issues) ≠ errorMessage (.unknownTool n)) := by
  refine ⟨?_, rfl, invalidInput_ne_apiError issues, invalidInput_ne_unknownTool issues⟩
  unfold schemaParseFor at h
  split_ifs at h with h1 h2
  · cases hp : uuidSchemaParse args with
    | ok u => rw [hp] at h; simp at h
    | error is =>
        rw [hp] at h
        simp only [Option.some.injEq] at h
        subst h
        rcases h1 with rfl | rfl | rfl | rfl <;>
          simp [dispatch, uuidToolRun, hp]
  · cases hp : deploySchemaParse args with
    | ok dp => rw [hp] at h; simp at h
    | error is =>
        rw [hp] at h
        simp only [Option.some.injEq] at h
        subst h
        subst h2
        simp [dispatch, deployRun, hp]

/-- Claim C7 witness: `get-application` with empty arguments object fails
validation with a single required-uuid issue, makes no call, and its
message differs from a sample remote-call error message. -/
theorem validation_failure_distinct_witness :
    dispatch okOracle "get-application" (some (.obj []))
      = ⟨[], .error (.invalidInput [mkIssue "string" none ["uuid"]])⟩ ∧
    errorMessage (.invalidInput [mkIssue "string" none ["uuid"]])
      ≠ errorMessage (.apiError 404 "Not Found" (.obj [])) :=
  ⟨(validation_failure_distinct okOracle "get-application" (some (.obj []))
      [mkIssue "string" none ["uuid"]] rfl).1,
   (validation_failure_distinct okOracle "get-application" (some (.obj []))
      [mkIssue "string" none ["uuid"]] rfl).2.2.1 404 "Not Found" (.obj [])⟩

lemma mem_tag_iff (dp : DeployParams) :
    "tag" ∈ (deployQueryPairs dp).map Prod.fst ↔ ∃ t, dp.tag = some t ∧ t ≠ "" := by
  obtain ⟨t, u, f⟩ := dp
  rcases t with _ | t <;> rcases u with _ | u <;> rcases f with _ | b <;> try cases b
  all_goals simp [deployQueryPairs]

lemma mem_uuid_iff (dp : DeployParams) :
    "uuid" ∈ (deployQueryPairs dp).map Prod.fst ↔ ∃ u, dp.uuid = some u ∧ u ≠ "" := by
  obtain ⟨t, u, f⟩ := dp
  rcases t with _ | t <;> rcases u with _ | u <;> rcases f with _ | b <;> try cases b
  all_goals simp [deployQueryPairs]

lemma mem_force_iff (dp : DeployParams) :
    "force" ∈ (deployQueryPairs dp).map Prod.fst ↔ dp.force = some true := by
  obtain ⟨t, u, f⟩ := dp
  rcases t with _ | t <;> rcases u with _ | u <;> rcases f with _ | b <;> try cases b
  all_goals simp [deployQueryPairs]

lemma mem_force_pair_iff (dp : DeployParams) :
    ("force", "true") ∈ deployQueryPairs dp ↔ dp.force = some true := by
  obtain ⟨t, u, f⟩ := dp
  rcases t with _ | t <;> rcases u with _ | u <;> rcases f with _ | b <;> try cases b
  all_goals simp [deployQueryPairs]

lemma deployEndpoint_only_tag (t : String) (ht : t ≠ "") :
    deployEndpoint ⟨some t, none, none⟩ = "/deploy?tag=" ++ urlEncode t := by
  simp only [deployEndpoint, deployQueryPairs, if_neg ht, queryToString]
  simp only [List.append_nil, List.nil_append, List.map_cons, List.map_nil,
    String.intercalate]
  rw [show urlEncode "tag" = "tag" from by decide]
  rw [show ("tag" ++ "=" ++ urlEncode t : String) = "tag=" ++ urlEncode t from by
    rw [show ("tag" ++ "=" : String) = "tag=" from by decide]]
  rw [show String.intercalate.go ("tag=" ++ urlEncode t) "&" [] = "tag=" ++ urlEncode t
    from rfl]
  rw [← String.append_assoc]
  rw [show ("/deploy?" ++ "tag=" : String) = "/deploy?tag=" from by decide]

/-- Claim C3 counterexample: supplying `tag` as the empty string produces
no `tag` parameter at all, refuting "the query string contains a tag
parameter iff tag was supplied". -/
theorem deploy_tag_iff_cex :
    ¬ (("tag" ∈ (deployQueryPairs ⟨some "", none, none⟩).map Prod.fst)
      ↔ (DeployParams.tag ⟨some "", none, none⟩).isSome = true) := by
  decide

/-- Claim C3 amended: the query contains a `tag` parameter iff `tag` was
supplied non-empty, a `uuid` parameter iff `uuid` was supplied non-empty,
and `force=true` iff `force` was supplied as `true`; omitted fields never
produce a parameter (empty-valued or otherwise), and with only a non-empty
`tag` supplied the query string is exactly `tag=<encoded value>`. -/
theorem deploy_query_assembly (dp : DeployParams) :
    ("tag" ∈ (deployQueryPairs dp).map Prod.fst ↔ ∃ t, dp.tag = some t ∧ t ≠ "") ∧
    ("uuid" ∈ (deployQueryPairs dp).map Prod.fst ↔ ∃ u, dp.uuid = some u ∧ u ≠ "") ∧
    ("force" ∈ (deployQueryPairs dp).map Prod.fst ↔ dp.force = some true) ∧
    (("force", "true") ∈ deployQueryPairs dp ↔ dp.force = some true) ∧
    (∀ t, dp.tag = some t → t ≠ "" → dp.uuid = none → dp.force = none →
      deployEndpoint dp = "/deploy?tag=" ++ urlEncode t) :=
  ⟨mem_tag_iff dp, mem_uuid_iff dp, mem_force_iff dp, mem_force_pair_iff dp,
    fun t ht hne hu hf => by
      have hdp : dp = ⟨some t, none, none⟩ := by
        obtain ⟨t', u', f'⟩ := dp
        simp_all
      rw [hdp]
      exact deployEndpoint_only_tag t hne⟩

/-- Claim C3 amended witness: deploying with only `tag: "v1.2"` targets
`/deploy?tag=v1.2`. -/
theorem deploy_query_assembly_witness :
    deployEndpoint ⟨some "v1.2", none, none⟩ = "/deploy?tag=" ++ urlEncode "v1.2" :=
  (deploy_query_assembly ⟨some "v1.2", none, none⟩).2.2.2.2 "v1.2" rfl (by decide) rfl rfl

/-- Claim C9 (code bug): the readme documents `get-version` and
`health-check` operations, and the claim says registered tools map to GET
`/version` and `/health`, but the implementation registers no such tools:
neither name is in the registry, invoking either one raises the
unknown-tool error with no HTTP request, and only the five listing paths
are actually served by no-argument tools. -/
theorem version_health_missing_bug :
    ("get-version" ∉ registryNames ∧ "health-check" ∉ registryNames) ∧
    (∀ (oracle : ApiCall → HttpResponse) (args : Option Json),
      dispatch oracle "get-version" args = ⟨[], .error (.unknownTool "get-version")⟩) ∧
    (∀ (oracle : ApiCall → HttpResponse) (args : Option Json),
      dispatch oracle "health-check" args = ⟨[], .error (.unknownTool "health-check")⟩) ∧
    (∀ (oracle : ApiCall → HttpResponse) (args : Option Json),
      (dispatch oracle "list-resources" args).calls = [getCall "/resources"] ∧
      (dispatch oracle "list-applications" args).calls = [getCall "/applications"] ∧
      (dispatch oracle "list-services" args).calls = [getCall "/services"] ∧
      (dispatch oracle "list-databases" args).calls = [getCall "/databases"] ∧
      (dispatch oracle "list-deployments" args).calls = [getCall "/deployments"]) := by
  refine ⟨⟨by decide, by decide⟩, fun oracle args => ?_, fun oracle args => ?_,
    fun oracle args => ⟨?_, ?_, ?_, ?_, ?_⟩⟩ <;>
    simp [dispatch, runCall]

end CoolifyMcp
